import Mathlib

/-!
Shallow embedding of the scheduling core of SCOOP (`src/scoop/types.py`):
the `Future` entity (two independently nullable outcome fields
`resultValue` / `exceptionValue`, a `None`-sentinel design), the
`FutureQueue` with its three containers (`movable` / `ready` /
`inprogress`), watermark-driven eviction, selection (`pop`), transport
reconciliation (`updateQueue`), removal and cancellation.

Python object references are modelled by storing `FutureId`s in the
queue containers and keeping the canonical `Future` record in an
association-list registry (`futureDict`); mutating a registered future
is modelled by rewriting its registry entry.  Transport effects are
recorded in event-log fields of the queue state (`sent`, `requests`,
`fired`).  Fields of the Python class that no verified property reads
(`args`, `kargs`, `stopWatch`) are omitted; `callable` and
`creationTime` are kept as opaque numbers.
-/

namespace Scoop

/-- Source: `FutureId = namedtuple('FutureId', ['worker', 'rank'])`. -/
structure FutureId where
  worker : Nat
  rank : Nat
deriving DecidableEq

/-- A Python exception value as the scheduler distinguishes it:
`CancelledError` (checked with `isinstance` in `Future.cancelled`)
versus any other exception, whose payload is opaque. -/
inductive PyError where
  | cancelled : PyError
  | error : Nat → PyError
deriving DecidableEq

/-- A completion handler as passed to `add_done_callback`.  The source
documents the argument as a plain callable invoked with the future as
its only argument; `updateQueue`, however, invokes `callback.future(...)`,
so whether the handler body ever runs depends on the object exposing a
`future` attribute.  `hasFutureAttr` records that; a plain callable has
no such attribute, and the attribute lookup raises `AttributeError`
(swallowed by the bare `except` in `updateQueue`). -/
structure Callback where
  cid : Nat
  hasFutureAttr : Bool
deriving DecidableEq

/-- The `Future` class: identity, lineage, parent `index`, the two
nullable outcome fields (`None` sentinel = `Option.none`), the optional
greenlet (execution context) and the ordered callback list. -/
structure Future where
  id : FutureId
  parentId : Option FutureId
  index : Option Nat
  callable : Nat
  creationTime : Nat
  resultValue : Option Nat
  exceptionValue : Option PyError
  greenlet : Option Nat
  callback : List Callback
deriving DecidableEq

namespace Future

/-- Source `Future.done`: `self.resultValue != None or self.exceptionValue != None`. -/
def done (f : Future) : Bool :=
  f.resultValue.isSome || f.exceptionValue.isSome

/-- Source `Future.cancelled`: `isinstance(self.exceptionValue, CancelledError)`. -/
def cancelled (f : Future) : Bool :=
  match f.exceptionValue with
  | some PyError.cancelled => true
  | _ => false

/-- Spec-derived observable: the future's outcome is `Completed`, i.e.
a (non-null) result value is stored.  The source has no such method;
under the `None`-sentinel representation a stored value is the only
witness of completion. -/
def completedOutcome (f : Future) : Bool :=
  f.resultValue.isSome

/-- Spec-derived observable: the future's outcome is `Failed`, i.e. a
stored exception other than `CancelledError`. -/
def failedOutcome (f : Future) : Bool :=
  match f.exceptionValue with
  | some (PyError.error _) => true
  | _ => false

/-- Exactly one of the three terminal outcomes {Completed, Failed,
Cancelled} holds of the future. -/
def exactlyOneOutcome (f : Future) : Bool :=
  (f.completedOutcome && !f.failedOutcome && !f.cancelled) ||
  (!f.completedOutcome && f.failedOutcome && !f.cancelled) ||
  (!f.completedOutcome && !f.failedOutcome && f.cancelled)

/-- What a call to `Future.result` does, as seen by the caller:
suspend through the scheduler's join, raise the stored exception, or
return the stored result value. -/
inductive ResultAction where
  | suspendJoin
  | raiseExc (e : PyError)
  | value (v : Option Nat)
deriving DecidableEq

/-- Source `Future.result`: `if not self.done(): return scoop.futures._join(self)`;
then `if self.exceptionValue != None: raise self.exceptionValue`;
`return self.resultValue`. -/
def result (f : Future) : ResultAction :=
  if f.done = false then ResultAction.suspendJoin
  else
    match f.exceptionValue with
    | some e => ResultAction.raiseExc e
    | none => ResultAction.value f.resultValue

/-- Source `Future.exception`: `return self.exceptionValue` (the `timeout`
parameter is accepted but unused). -/
def exceptionOf (f : Future) : Option PyError :=
  f.exceptionValue

/-- Source `Future.add_done_callback`: the body is exactly
`self.callback.append(callable)`.  The second component records which
handlers the call itself invokes — the source invokes none, regardless
of whether the future is already terminal. -/
def add_done_callback (f : Future) (cb : Callback) : Future × List Nat :=
  ({ f with callback := f.callback ++ [cb] }, [])

end Future

/-- The scheduler state: the three `FutureQueue` containers (deques of
object references, modelled as lists of `FutureId` with the front of
the deque at the head), the process-wide registry
`scoop.control.futureDict` as an association list, the two watermarks,
and event logs for the messages the queue hands to the transport:
`sent` (futures exported via `sendFuture`, oldest first), `requests`
(count of `sendRequest` calls) and `fired` (handler ids whose `future`
attribute was successfully invoked during reconciliation, in order). -/
structure QueueState where
  movable : List FutureId
  ready : List FutureId
  inprogress : List FutureId
  registry : List (FutureId × Future)
  lowwatermark : Nat
  highwatermark : Nat
  sent : List FutureId
  requests : Nat
  fired : List Nat
deriving DecidableEq

/-- Dict lookup `futureDict[k]` (first matching key). -/
def regLookup (r : List (FutureId × Future)) (k : FutureId) : Option Future :=
  (r.find? (fun p => p.1 = k)).map (fun p => p.2)

/-- Dict assignment `futureDict[k] = v`: overwrite the existing entry, else add one. -/
def regSet (r : List (FutureId × Future)) (k : FutureId) (v : Future) :
    List (FutureId × Future) :=
  match r with
  | [] => [(k, v)]
  | p :: rest => if p.1 = k then (k, v) :: rest else p :: regSet rest k v

/-- Dict removal `futureDict.pop(k)`: drop the entry with key `k` (on a well-formed
dict there is at most one; modelled totally, the KeyError case being
excluded by the callers' preconditions). -/
def regPop (r : List (FutureId × Future)) (k : FutureId) :
    List (FutureId × Future) :=
  r.filter (fun p => p.1 ≠ k)

/-- Well-formedness of the registry as a dict: each stored future is
keyed by its own id, and keys are unique. -/
def regWF (r : List (FutureId × Future)) : Prop :=
  (∀ p ∈ r, p.2.id = p.1) ∧ (r.map (fun p => p.1)).Nodup

instance (r : List (FutureId × Future)) : Decidable (regWF r) := by
  unfold regWF; infer_instance

/-- The handler ids that actually run when `updateQueue` walks a
callback list: `callback.future(...)` resolves the attribute only on
objects exposing one; on a plain callable the lookup raises
`AttributeError`, which the bare `except: pass` swallows, so the
handler never runs. -/
def firedIds (cbs : List Callback) : List Nat :=
  (cbs.filter (fun cb => cb.hasFutureAttr)).map (fun cb => cb.cid)

namespace FutureQueue

/-- The eviction loop at the end of `FutureQueue.append`:
`while len(self.movable) > self.highwatermark:
   self.socket.sendFuture(self.movable.popleft())`.
Returns the futures handed to `sendFuture` (in eviction order) and the
remaining deque. -/
def evictLoop (hw : Nat) : List FutureId → List FutureId × List FutureId
  | [] => ([], [])
  | x :: rest =>
    if (x :: rest).length > hw then
      let p := evictLoop hw rest
      (x :: p.1, p.2)
    else ([], x :: rest)

/-- Source `FutureQueue.append`: classify the future into one container by its
`resultValue` / `index` / `greenlet` fields, then run the
high-watermark eviction loop on `movable`. -/
def append (s : QueueState) (f : Future) : QueueState :=
  let s1 :=
    if f.resultValue.isSome && f.index.isNone then
      { s with inprogress := s.inprogress ++ [f.id] }
    else if f.resultValue.isSome && f.index.isSome then
      { s with ready := s.ready ++ [f.id] }
    else if f.greenlet.isSome then
      { s with inprogress := s.inprogress ++ [f.id] }
    else
      { s with movable := s.movable ++ [f.id] }
  let p := evictLoop s1.highwatermark s1.movable
  { s1 with movable := p.2, sent := s1.sent ++ p.1 }

/-- Source `FutureQueue.remove`: `self.movable.remove(future)` (first
occurrence; a future outside `movable` would raise `ValueError`,
excluded by the callers' preconditions). -/
def remove (s : QueueState) (fid : FutureId) : QueueState :=
  { s with movable := s.movable.erase fid }

/-- Source `FutureQueue.requestFuture`:
`for a in range(len(self), self.lowwatermark + 1): self.socket.sendRequest()`,
where `len(self) = len(movable) + len(ready)`. -/
def requestFuture (s : QueueState) : QueueState :=
  { s with requests :=
      s.requests + (s.lowwatermark + 1 - (s.movable.length + s.ready.length)) }

/-- Whether the future an `inprogress` reference points to has a
resolved `index` (the first reconciliation phase reads
`future.index != None` off the registered object). -/
def hasResolvedIndex (s : QueueState) (fid : FutureId) : Bool :=
  match regLookup s.registry fid with
  | some f => f.index.isSome
  | none => false

/-- One iteration of the `recvFuture` loop in `updateQueue`: if the
incoming future's id is registered, overwrite the registered object's
`resultValue` with the incoming one and walk its callback list
(`callback.future(...)` inside a bare `except`); otherwise register the
incoming future.  Either way the registry-canonical future is fed back
through `append`. -/
def mergeOne (s : QueueState) (g : Future) : QueueState :=
  match regLookup s.registry g.id with
  | some f =>
    let f' := { f with resultValue := g.resultValue }
    let s' := { s with registry := regSet s.registry g.id f',
                       fired := s.fired ++ firedIds f'.callback }
    append s' f'
  | none =>
    let s' := { s with registry := regSet s.registry g.id g }
    append s' g

/-- The first phase of `updateQueue`: move every `inprogress` future
whose `index` is resolved into `ready` (append in container order, then
remove each from `inprogress`). -/
def resolveInprogress (s : QueueState) : QueueState :=
  { s with
    ready := s.ready ++ s.inprogress.filter (fun fid => hasResolvedIndex s fid),
    inprogress := s.inprogress.filter (fun fid => !hasResolvedIndex s fid) }

/-- Source `FutureQueue.updateQueue`: resolve `inprogress` futures into
`ready`, then process the batch the transport's `recvFuture()`
returned. -/
def updateQueue (s : QueueState) (incoming : List Future) : QueueState :=
  incoming.foldl mergeOne (resolveInprogress s)

/-- Source `FutureQueue.pop`: reconcile, prefetch when below the low
watermark, then pop the right end of `ready`, else of `movable`.  When
both are empty the source blocks on `socket._poll(-1)` and reconciles
again until work arrives; the embedding returns `none` for that
would-block case. -/
def pop (s : QueueState) (incoming : List Future) :
    Option FutureId × QueueState :=
  let s1 := updateQueue s incoming
  let s2 := if s1.movable.length + s1.ready.length < s1.lowwatermark then
      requestFuture s1
    else s1
  if s2.ready.length ≠ 0 then
    (s2.ready.getLast?, { s2 with ready := s2.ready.dropLast })
  else if s2.movable.length ≠ 0 then
    (s2.movable.getLast?, { s2 with movable := s2.movable.dropLast })
  else
    (none, s2)

end FutureQueue

/-- Source `Future.cancel`: when the future sits in the queue's `movable`
container, store a `CancelledError`, pop the registry entry, remove it
from `movable` and return `True`; otherwise return `False` and change
nothing.  Returns (return value, new scheduler state, the caller's view
of the future object). -/
def Future.cancel (s : QueueState) (f : Future) : Bool × QueueState × Future :=
  if f.id ∈ s.movable then
    let f' := { f with exceptionValue := some PyError.cancelled }
    (true,
     FutureQueue.remove { s with registry := regPop s.registry f.id } f.id,
     f')
  else (false, s, f)

/-! ## Concrete states used by tests and witnesses -/

/-- A freshly constructed future of worker `w` and rank `r`: both
outcome fields `None`, no greenlet, no index, no callbacks. -/
def mkFuture (w r : Nat) : Future :=
  { id := ⟨w, r⟩, parentId := none, index := none, callable := 0,
    creationTime := 0, resultValue := none, exceptionValue := none,
    greenlet := none, callback := [] }

/-- A freshly constructed queue, with the watermarks of
`FutureQueue.__init__` (`lowwatermark = 5`, `highwatermark = 20`). -/
def emptyQueue : QueueState :=
  { movable := [], ready := [], inprogress := [], registry := [],
    lowwatermark := 5, highwatermark := 20,
    sent := [], requests := 0, fired := [] }

/-! ## Helper lemmas -/

/-- The eviction loop exports exactly the prefix of `movable` beyond
the high watermark and keeps the remaining suffix. -/
theorem evictLoop_eq (hw : Nat) (m : List FutureId) :
    FutureQueue.evictLoop hw m =
      (m.take (m.length - hw), m.drop (m.length - hw)) := by
  induction m with
  | nil => simp [FutureQueue.evictLoop]
  | cons x rest ih =>
    simp only [FutureQueue.evictLoop, List.length_cons]
    by_cases h : hw < rest.length + 1
    · have h2 : rest.length + 1 - hw = (rest.length - hw) + 1 := by omega
      simp [h, ih, h2]
    · have h2 : rest.length + 1 - hw = 0 := by omega
      simp [h, h2]

/-- Below or at the high watermark, the eviction loop does nothing. -/
theorem evictLoop_of_le (hw : Nat) (m : List FutureId)
    (h : m.length ≤ hw) : FutureQueue.evictLoop hw m = ([], m) := by
  have h0 : m.length - hw = 0 := Nat.sub_eq_zero_of_le h
  simp [evictLoop_eq, h0]

/-! ## C1: `done()` versus the terminal outcomes -/

/-- A future carrying both a stored result and a stored
`CancelledError`: the two-field representation does not exclude it, and
`updateQueue` copies only `resultValue` while never clearing
`exceptionValue`, so nothing in the class rules this shape out. -/
def bothSetFuture : Future :=
  { mkFuture 0 0 with resultValue := some 0,
                      exceptionValue := some PyError.cancelled }

/-- C1, counterexample: on `bothSetFuture`, `done()` is true but the
outcome is not exactly one of {Completed, Failed, Cancelled} — both
Completed (a result is stored) and Cancelled hold at once, refuting
"done() iff exactly one ... never simultaneously two". -/
theorem done_not_exactly_one_cex :
    Future.done bothSetFuture = true ∧
    Future.completedOutcome bothSetFuture = true ∧
    Future.cancelled bothSetFuture = true ∧
    Future.exactlyOneOutcome bothSetFuture = false := by decide

/-- C1, amended: `done()` is true iff at least one of Completed,
Failed, Cancelled holds; Failed and Cancelled are mutually exclusive
(both live in `exceptionValue`), but a stored result may coexist with a
stored error, in which case two outcomes hold at once. -/
theorem done_iff_some_outcome (f : Future) :
    (f.done = true ↔
      (f.completedOutcome = true ∨ f.failedOutcome = true ∨
       f.cancelled = true)) ∧
    ¬(f.failedOutcome = true ∧ f.cancelled = true) := by
  rcases f with ⟨i, pa, ix, c, ct, rv, ev, g, cb⟩
  rcases ev with _ | e
  · cases rv <;>
      simp [Future.done, Future.completedOutcome, Future.failedOutcome,
        Future.cancelled]
  · cases e <;> cases rv <;>
      simp [Future.done, Future.completedOutcome, Future.failedOutcome,
        Future.cancelled]

/-! ## C3: the `append` classification -/

/-- A future whose only terminal sign is a stored (non-cancel)
exception: `done()` is true, its `index` is unresolved, it has no
execution context. -/
def failedNoResult : Future :=
  { mkFuture 0 1 with exceptionValue := some (PyError.error 0) }

/-- C3, counterexample: `failedNoResult` has a terminal outcome
(`done()` true) and an unresolved `index`, yet `append` files it into
`pending` (`movable`), not `inflight` — the classification tests
`resultValue != None`, not terminality. -/
theorem append_failed_future_cex :
    Future.done failedNoResult = true ∧
    failedNoResult.index = none ∧
    (FutureQueue.append emptyQueue failedNoResult).movable =
      [failedNoResult.id] ∧
    (FutureQueue.append emptyQueue failedNoResult).inprogress = [] ∧
    (FutureQueue.append emptyQueue failedNoResult).ready = [] := by decide

/-- C3, amended: `append` files a future into exactly one container,
classifying on a non-null stored result value (not on any terminal
outcome): non-null result and unresolved index → `inflight`; non-null
result and resolved index → `ready`; otherwise an active execution
context → `inflight`; otherwise → `pending`.  (Stated below the high
watermark, where the subsequent eviction loop is a no-op.) -/
theorem append_classification (s : QueueState) (f : Future)
    (hw : s.movable.length < s.highwatermark) :
    (f.resultValue.isSome = true → f.index = none →
      (FutureQueue.append s f).inprogress = s.inprogress ++ [f.id] ∧
      (FutureQueue.append s f).ready = s.ready ∧
      (FutureQueue.append s f).movable = s.movable) ∧
    (f.resultValue.isSome = true → f.index.isSome = true →
      (FutureQueue.append s f).ready = s.ready ++ [f.id] ∧
      (FutureQueue.append s f).inprogress = s.inprogress ∧
      (FutureQueue.append s f).movable = s.movable) ∧
    (f.resultValue = none → f.greenlet.isSome = true →
      (FutureQueue.append s f).inprogress = s.inprogress ++ [f.id] ∧
      (FutureQueue.append s f).ready = s.ready ∧
      (FutureQueue.append s f).movable = s.movable) ∧
    (f.resultValue = none → f.greenlet = none →
      (FutureQueue.append s f).movable = s.movable ++ [f.id] ∧
      (FutureQueue.append s f).ready = s.ready ∧
      (FutureQueue.append s f).inprogress = s.inprogress) := by
  have hle : s.movable.length ≤ s.highwatermark := Nat.le_of_lt hw
  refine ⟨?_, ?_, ?_, ?_⟩
  · intro h1 h2
    simp [FutureQueue.append, h1, h2, evictLoop_of_le _ _ hle]
  · intro h1 h2
    rcases Option.isSome_iff_exists.mp h2 with ⟨v, hv⟩
    simp [FutureQueue.append, h1, hv, evictLoop_of_le _ _ hle]
  · intro h1 h2
    simp [FutureQueue.append, h1, h2, evictLoop_of_le _ _ hle]
  · intro h1 h2
    have hlen : (s.movable ++ [f.id]).length ≤ s.highwatermark := by
      simp; omega
    simp [FutureQueue.append, h1, h2, evictLoop_of_le _ _ hlen]

/-- C3 witness: the amended classification evaluated on a fresh future
appended to the fresh queue — it lands in `pending` alone. -/
theorem append_classification_witness :
    (FutureQueue.append emptyQueue (mkFuture 0 4)).movable =
      emptyQueue.movable ++ [(mkFuture 0 4).id] ∧
    (FutureQueue.append emptyQueue (mkFuture 0 4)).ready =
      emptyQueue.ready ∧
    (FutureQueue.append emptyQueue (mkFuture 0 4)).inprogress =
      emptyQueue.inprogress :=
  (append_classification emptyQueue (mkFuture 0 4) (by decide)).2.2.2
    rfl rfl

/-! ## C6: `cancel()` outside `pending` is a pure no-op -/

/-- C6: on a future not sitting in the `pending` (`movable`) container
— in particular one in `inflight` — `cancel()` returns `False` and
leaves the future, the registry and all three containers exactly as
they were. -/
theorem cancel_nonpending_frame (s : QueueState) (f : Future)
    (h : f.id ∉ s.movable) :
    Future.cancel s f = (false, s, f) := by
  simp [Future.cancel, h]

/-- C6 witness: a future parked in `inflight` of an otherwise fresh
queue; `cancel()` changes nothing. -/
theorem cancel_nonpending_frame_witness :
    Future.cancel
        { emptyQueue with inprogress := [(mkFuture 0 6).id],
                          registry := [((mkFuture 0 6).id, mkFuture 0 6)] }
        (mkFuture 0 6) =
      (false,
       { emptyQueue with inprogress := [(mkFuture 0 6).id],
                         registry := [((mkFuture 0 6).id, mkFuture 0 6)] },
       mkFuture 0 6) :=
  cancel_nonpending_frame _ _ (by decide)

/-! ## C7: high-watermark eviction in `append` -/

/-- C7: with `highwatermark = H`, an `append` that files its future
into `pending` and brings `|pending|` to `H + k` (`k ≥ 1`) exports
exactly the `k` oldest pending futures, in FIFO (insertion) order, to
the transport, and leaves `|pending| = H`. -/
theorem append_watermark_eviction (s : QueueState) (f : Future) (k : Nat)
    (hres : f.resultValue = none) (hgr : f.greenlet = none)
    (hk : 1 ≤ k)
    (hlen : s.movable.length + 1 = s.highwatermark + k) :
    (FutureQueue.append s f).sent =
      s.sent ++ (s.movable ++ [f.id]).take k ∧
    ((s.movable ++ [f.id]).take k).length = k ∧
    (FutureQueue.append s f).movable = (s.movable ++ [f.id]).drop k ∧
    (FutureQueue.append s f).movable.length = s.highwatermark := by
  have hsub : s.movable.length + 1 - s.highwatermark = k := by omega
  refine ⟨?_, ?_, ?_, ?_⟩
  · simp [FutureQueue.append, hres, hgr, evictLoop_eq, hsub]
  · simp [List.length_take]; omega
  · simp [FutureQueue.append, hres, hgr, evictLoop_eq, hsub]
  · simp [FutureQueue.append, hres, hgr, evictLoop_eq, hsub]; omega

/-- One pending future `⟨0, 7⟩` in a queue whose high watermark is 1:
the next pending insertion overflows it. -/
def overflowQueue : QueueState :=
  { emptyQueue with highwatermark := 1, movable := [⟨0, 7⟩] }

/-- C7 witness: `H = 1`, two pending futures after the append (`k = 1`):
the oldest is exported and one remains. -/
theorem append_watermark_eviction_witness :
    (FutureQueue.append overflowQueue (mkFuture 0 8)).sent =
      overflowQueue.sent ++
        (overflowQueue.movable ++ [(mkFuture 0 8).id]).take 1 ∧
    ((overflowQueue.movable ++ [(mkFuture 0 8).id]).take 1).length = 1 ∧
    (FutureQueue.append overflowQueue (mkFuture 0 8)).movable =
      (overflowQueue.movable ++ [(mkFuture 0 8).id]).drop 1 ∧
    (FutureQueue.append overflowQueue (mkFuture 0 8)).movable.length =
      overflowQueue.highwatermark :=
  append_watermark_eviction overflowQueue (mkFuture 0 8) 1 rfl rfl
    (by decide) (by decide)

/-! ## C9: `add_done_callback` on an already-terminal future -/

/-- A future that already completed with a stored result. -/
def doneFuture : Future := { mkFuture 0 2 with resultValue := some 1 }

/-- C9: `add_done_callback` on an already-terminal future only appends
the handler to the callback list; its invocation log is empty — the
body never fires the handler, contradicting the method's own docstring
("If the future has already completed or been cancelled then callable
will be called immediately"). -/
theorem add_done_callback_terminal_noop :
    Future.done doneFuture = true ∧
    Future.add_done_callback doneFuture ⟨7, false⟩ =
      ({ doneFuture with callback := [⟨7, false⟩] }, []) := by decide

/-! ## C10: a null result is indistinguishable from "not finished" -/

/-- C10: under the `None`-sentinel representation, a future whose
computation finished with a legitimately null (`None`) result and no
stored error has `done() = False`, and `result()` suspends the caller
through the scheduler's join instead of returning the value. -/
theorem null_result_indistinguishable (f : Future)
    (hr : f.resultValue = none) (he : f.exceptionValue = none) :
    f.done = false ∧ f.result = Future.ResultAction.suspendJoin := by
  simp [Future.done, Future.result, hr, he]

/-- C10 witness: a fresh future (both fields `None`). -/
theorem null_result_indistinguishable_witness :
    (mkFuture 0 3).done = false ∧
    (mkFuture 0 3).result = Future.ResultAction.suspendJoin :=
  null_result_indistinguishable (mkFuture 0 3) rfl rfl

/-! ## C5: successful cancellation -/

/-- Popping a key: `futureDict.pop(k)` removes the key: a lookup after `regPop` finds
nothing. -/
theorem regLookup_regPop (r : List (FutureId × Future)) (k : FutureId) :
    regLookup (regPop r k) k = none := by
  induction r with
  | nil => rfl
  | cons p rest ih =>
    by_cases h : p.1 = k
    · simp [regPop, h]
      simp [regPop] at ih
      exact ih
    · simp [regPop, regLookup, h]

/-- C5: `cancel()` returns `True` iff the future sits in `pending`
(`movable`) at call time; after a successful cancel the future's id is
gone from the registry and from all three containers, `done()` holds of
the future, and its stored error is the cancellation error.  (The
container hypotheses are the disjointness the queue maintains.) -/
theorem cancel_pending_spec (s : QueueState) (f : Future)
    (hnd : s.movable.Nodup)
    (hdr : ∀ x ∈ s.movable, x ∉ s.ready)
    (hdi : ∀ x ∈ s.movable, x ∉ s.inprogress) :
    ((Future.cancel s f).1 = true ↔ f.id ∈ s.movable) ∧
    (f.id ∈ s.movable →
      regLookup (Future.cancel s f).2.1.registry f.id = none ∧
      f.id ∉ (Future.cancel s f).2.1.movable ∧
      f.id ∉ (Future.cancel s f).2.1.ready ∧
      f.id ∉ (Future.cancel s f).2.1.inprogress ∧
      Future.done (Future.cancel s f).2.2 = true ∧
      (Future.cancel s f).2.2.exceptionValue = some PyError.cancelled) := by
  constructor
  · by_cases h : f.id ∈ s.movable <;> simp [Future.cancel, h]
  · intro h
    simp only [Future.cancel, if_pos h, FutureQueue.remove]
    refine ⟨regLookup_regPop _ _, hnd.not_mem_erase, hdr _ h, hdi _ h,
      ?_, ?_⟩
    · simp [Future.done]
    · simp

/-- A queue holding exactly one pending, registered future `⟨0, 5⟩`. -/
def onePendingQueue : QueueState :=
  { emptyQueue with movable := [(mkFuture 0 5).id],
                    registry := [((mkFuture 0 5).id, mkFuture 0 5)] }

/-- C5 witness: cancelling the lone pending future of
`onePendingQueue` succeeds and scrubs every trace of it. -/
theorem cancel_pending_spec_witness :
    ((Future.cancel onePendingQueue (mkFuture 0 5)).1 = true ↔
      (mkFuture 0 5).id ∈ onePendingQueue.movable) ∧
    ((mkFuture 0 5).id ∈ onePendingQueue.movable →
      regLookup (Future.cancel onePendingQueue (mkFuture 0 5)).2.1.registry
          (mkFuture 0 5).id = none ∧
      (mkFuture 0 5).id ∉
        (Future.cancel onePendingQueue (mkFuture 0 5)).2.1.movable ∧
      (mkFuture 0 5).id ∉
        (Future.cancel onePendingQueue (mkFuture 0 5)).2.1.ready ∧
      (mkFuture 0 5).id ∉
        (Future.cancel onePendingQueue (mkFuture 0 5)).2.1.inprogress ∧
      Future.done (Future.cancel onePendingQueue (mkFuture 0 5)).2.2 =
        true ∧
      (Future.cancel onePendingQueue (mkFuture 0 5)).2.2.exceptionValue =
        some PyError.cancelled) :=
  cancel_pending_spec onePendingQueue (mkFuture 0 5) (by decide)
    (by decide) (by decide)

/-! ## C2: the reconciliation merge and its callbacks -/

/-- A plain callable registered as a done-callback: it exposes no
`future` attribute, which is exactly what `add_done_callback` documents
(`callable` is "called with the future as its only argument"). -/
def plainHandler : Callback := ⟨3, false⟩

/-- A locally registered future with one plain-callable done-callback,
not currently filed in any container (it was dispatched remotely). -/
def registeredC2 : Future := { mkFuture 0 9 with callback := [plainHandler] }

/-- The scheduler state holding `registeredC2` in the registry only. -/
def stateC2 : QueueState :=
  { emptyQueue with registry := [(registeredC2.id, registeredC2)] }

/-- The transport's copy of the same future, now completed remotely. -/
def incomingC2 : Future := { mkFuture 0 9 with resultValue := some 4 }

/-- C2: when the completed duplicate arrives, `updateQueue` overwrites
the registered object's `resultValue` and refiles it, but the
registered plain-callable handler never fires: the source invokes
`callback.future(...)` instead of `callback(...)`, the attribute lookup
raises, and the bare `except: pass` swallows it — so the fired-handler
log stays empty, against both the claim and the method's own docstring. -/
theorem merge_plain_callable_never_fires :
    (FutureQueue.updateQueue stateC2 [incomingC2]).fired = [] ∧
    regLookup (FutureQueue.updateQueue stateC2 [incomingC2]).registry
        registeredC2.id =
      some { registeredC2 with resultValue := some 4 } ∧
    (FutureQueue.updateQueue stateC2 [incomingC2]).inprogress =
      [registeredC2.id] := by decide

/-! ## C8: the selection policy of `pop` -/

/-- The operation `append` only ever appends to `ready` (the new id, or nothing). -/
theorem append_ready_extends (s : QueueState) (f : Future) :
    ∃ t, (FutureQueue.append s f).ready = s.ready ++ t := by
  simp only [FutureQueue.append]
  split
  · exact ⟨[], by simp⟩
  · split
    · exact ⟨[f.id], by simp⟩
    · split
      · exact ⟨[], by simp⟩
      · exact ⟨[], by simp⟩

/-- One reconciliation merge only ever appends to `ready`. -/
theorem mergeOne_ready_extends (s : QueueState) (g : Future) :
    ∃ t, (FutureQueue.mergeOne s g).ready = s.ready ++ t := by
  unfold FutureQueue.mergeOne
  cases regLookup s.registry g.id with
  | none => exact append_ready_extends _ g
  | some f => exact append_ready_extends _ _

/-- Folding the merge over the incoming batch only appends to `ready`. -/
theorem foldl_mergeOne_ready_extends (l : List Future) :
    ∀ s : QueueState,
      ∃ t, (List.foldl FutureQueue.mergeOne s l).ready = s.ready ++ t := by
  induction l with
  | nil => exact fun s => ⟨[], by simp⟩
  | cons g rest ih =>
    intro s
    obtain ⟨t0, ht0⟩ := mergeOne_ready_extends s g
    obtain ⟨t, ht⟩ := ih (FutureQueue.mergeOne s g)
    exact ⟨t0 ++ t, by simp [List.foldl_cons, ht, ht0]⟩

/-- Prefetch `requestFuture` touches only the request log, not `ready`. -/
@[simp] theorem requestFuture_ready (s : QueueState) :
    (FutureQueue.requestFuture s).ready = s.ready := rfl

/-- Prefetch `requestFuture` touches only the request log, not `movable`. -/
@[simp] theorem requestFuture_movable (s : QueueState) :
    (FutureQueue.requestFuture s).movable = s.movable := rfl

/-- Reconciliation (`updateQueue`) only appends to `ready`: the
elements present at call time survive, as a prefix, in order. -/
theorem updateQueue_ready_extends (s : QueueState) (incoming : List Future) :
    ∃ t, (FutureQueue.updateQueue s incoming).ready = s.ready ++ t := by
  obtain ⟨t, ht⟩ :=
    foldl_mergeOne_ready_extends incoming (FutureQueue.resolveInprogress s)
  refine ⟨s.inprogress.filter
      (fun fid => FutureQueue.hasResolvedIndex s fid) ++ t, ?_⟩
  calc (FutureQueue.updateQueue s incoming).ready
      = (FutureQueue.resolveInprogress s).ready ++ t := ht
    _ = _ := by simp [FutureQueue.resolveInprogress]

/-- What `pop`'s non-blocking path returns, as a function of the
reconciled containers. -/
theorem pop_eq (s : QueueState) (incoming : List Future) :
    (FutureQueue.pop s incoming).1 =
      (if (FutureQueue.updateQueue s incoming).ready.length ≠ 0 then
        (FutureQueue.updateQueue s incoming).ready.getLast?
      else if (FutureQueue.updateQueue s incoming).movable.length ≠ 0 then
        (FutureQueue.updateQueue s incoming).movable.getLast?
      else none) := by
  simp only [FutureQueue.pop]
  split
  · simp only [requestFuture_ready, requestFuture_movable]
    split
    · simp
    · split
      · simp
      · simp
  · split
    · simp
    · split
      · simp
      · simp

/-- C8: `pop` reconciles first and then serves strictly from `ready`
before `pending`, LIFO on each: the reconciled `ready` is the call-time
`ready` plus appended arrivals (so a non-empty `ready` stays
non-empty), and `pop` returns its most recently added element; only
when the reconciled `ready` is empty does `pop` return the most
recently added element of `pending` (`movable`). -/
theorem pop_selection_policy (s : QueueState) (incoming : List Future) :
    (∃ t, (FutureQueue.updateQueue s incoming).ready = s.ready ++ t) ∧
    (s.ready ≠ [] →
      (FutureQueue.pop s incoming).1 =
        (FutureQueue.updateQueue s incoming).ready.getLast?) ∧
    ((FutureQueue.updateQueue s incoming).ready = [] →
      (FutureQueue.updateQueue s incoming).movable ≠ [] →
      (FutureQueue.pop s incoming).1 =
        (FutureQueue.updateQueue s incoming).movable.getLast?) := by
  refine ⟨updateQueue_ready_extends s incoming, ?_, ?_⟩
  · intro h
    obtain ⟨t, ht⟩ := updateQueue_ready_extends s incoming
    have hne : (FutureQueue.updateQueue s incoming).ready ≠ [] := by
      rw [ht]
      exact fun hc => h (List.append_eq_nil.mp hc).1
    have hlen : (FutureQueue.updateQueue s incoming).ready.length ≠ 0 := by
      simpa [List.length_eq_zero] using hne
    rw [pop_eq, if_pos hlen]
  · intro hr hm
    have hlenr : ¬ (FutureQueue.updateQueue s incoming).ready.length ≠ 0 := by
      simp [hr]
    have hlenm : (FutureQueue.updateQueue s incoming).movable.length ≠ 0 := by
      simpa [List.length_eq_zero] using hm
    rw [pop_eq, if_neg hlenr, if_pos hlenm]

/-- A queue with one future filed in `ready` and nothing else. -/
def oneReadyQueue : QueueState := { emptyQueue with ready := [⟨0, 12⟩] }

/-- C8 witness: with `ready` non-empty and no transport traffic, `pop`
returns the most recently added element of the reconciled `ready`. -/
theorem pop_selection_policy_witness :
    (FutureQueue.pop oneReadyQueue []).1 =
      (FutureQueue.updateQueue oneReadyQueue []).ready.getLast? :=
  (pop_selection_policy oneReadyQueue []).2.1 (by decide)

/-! ## C4: disjointness of the three containers -/

/-- The containment discipline of the spec: no duplicates within a
container and pairwise disjointness across the three containers. -/
def disjInv (m r p : List FutureId) : Prop :=
  m.Nodup ∧ r.Nodup ∧ p.Nodup ∧
  (∀ x ∈ m, x ∉ r) ∧ (∀ x ∈ m, x ∉ p) ∧ (∀ x ∈ r, x ∉ p)

instance (m r p : List FutureId) : Decidable (disjInv m r p) := by
  unfold disjInv; infer_instance

/-- The queue invariant: `disjInv` of `movable`, `ready`, `inprogress`. -/
def QueueState.Invariant (s : QueueState) : Prop :=
  disjInv s.movable s.ready s.inprogress

instance (s : QueueState) : Decidable s.Invariant := by
  unfold QueueState.Invariant; infer_instance

/-- Membership of an id in any of the three containers. -/
def QueueState.inContainers (s : QueueState) (x : FutureId) : Prop :=
  x ∈ s.movable ∨ x ∈ s.ready ∨ x ∈ s.inprogress

instance (s : QueueState) (x : FutureId) : Decidable (s.inContainers x) := by
  unfold QueueState.inContainers; infer_instance

/-- The invariant `disjInv` restricts along sublists of each container. -/
theorem disjInv_sublist {m m' r r' p p' : List FutureId}
    (h : disjInv m r p) (hm : List.Sublist m' m) (hr : List.Sublist r' r)
    (hp : List.Sublist p' p) : disjInv m' r' p' := by
  obtain ⟨h1, h2, h3, h4, h5, h6⟩ := h
  refine ⟨h1.sublist hm, h2.sublist hr, h3.sublist hp, ?_, ?_, ?_⟩
  · exact fun x hx hx' => h4 x (hm.subset hx) (hr.subset hx')
  · exact fun x hx hx' => h5 x (hm.subset hx) (hp.subset hx')
  · exact fun x hx hx' => h6 x (hr.subset hx) (hp.subset hx')

/-- Appending a genuinely new id to `movable` keeps `disjInv`. -/
theorem disjInv_append_movable {m r p : List FutureId} {x : FutureId}
    (h : disjInv m r p) (hm : x ∉ m) (hr : x ∉ r) (hp : x ∉ p) :
    disjInv (m ++ [x]) r p := by
  obtain ⟨h1, h2, h3, h4, h5, h6⟩ := h
  refine ⟨?_, h2, h3, ?_, ?_, h6⟩
  · rw [List.nodup_append]
    exact ⟨h1, List.nodup_singleton x,
      fun a ha hax => hm (by simp only [List.mem_singleton] at hax; exact hax ▸ ha)⟩
  · intro y hy
    rcases List.mem_append.mp hy with hy | hy
    · exact h4 y hy
    · simp only [List.mem_singleton] at hy; subst hy; exact hr
  · intro y hy
    rcases List.mem_append.mp hy with hy | hy
    · exact h5 y hy
    · simp only [List.mem_singleton] at hy; subst hy; exact hp

/-- Appending a genuinely new id to `ready` keeps `disjInv`. -/
theorem disjInv_append_ready {m r p : List FutureId} {x : FutureId}
    (h : disjInv m r p) (hm : x ∉ m) (hr : x ∉ r) (hp : x ∉ p) :
    disjInv m (r ++ [x]) p := by
  obtain ⟨h1, h2, h3, h4, h5, h6⟩ := h
  refine ⟨h1, ?_, h3, ?_, h5, ?_⟩
  · rw [List.nodup_append]
    exact ⟨h2, List.nodup_singleton x,
      fun a ha hax => hr (by simp only [List.mem_singleton] at hax; exact hax ▸ ha)⟩
  · intro y hy hc
    rcases List.mem_append.mp hc with hc | hc
    · exact h4 y hy hc
    · simp only [List.mem_singleton] at hc; subst hc; exact hm hy
  · intro y hy
    rcases List.mem_append.mp hy with hy | hy
    · exact h6 y hy
    · simp only [List.mem_singleton] at hy; subst hy; exact hp

/-- Appending a genuinely new id to `inprogress` keeps `disjInv`. -/
theorem disjInv_append_inprogress {m r p : List FutureId} {x : FutureId}
    (h : disjInv m r p) (hm : x ∉ m) (hr : x ∉ r) (hp : x ∉ p) :
    disjInv m r (p ++ [x]) := by
  obtain ⟨h1, h2, h3, h4, h5, h6⟩ := h
  refine ⟨h1, h2, ?_, h4, ?_, ?_⟩
  · rw [List.nodup_append]
    exact ⟨h3, List.nodup_singleton x,
      fun a ha hax => hp (by simp only [List.mem_singleton] at hax; exact hax ▸ ha)⟩
  · intro y hy hc
    rcases List.mem_append.mp hc with hc | hc
    · exact h5 y hy hc
    · simp only [List.mem_singleton] at hc; subst hc; exact hm hy
  · intro y hy hc
    rcases List.mem_append.mp hc with hc | hc
    · exact h6 y hy hc
    · simp only [List.mem_singleton] at hc; subst hc; exact hr hy

/-- The operation `append` never touches the registry. -/
@[simp] theorem append_registry (s : QueueState) (f : Future) :
    (FutureQueue.append s f).registry = s.registry := by
  simp only [FutureQueue.append]
  split
  · rfl
  · split
    · rfl
    · split
      · rfl
      · rfl

/-- The operation `append` on an id absent from every container preserves the
invariant (the eviction loop only drops a prefix of `movable`). -/
theorem append_invariant (s : QueueState) (f : Future)
    (h : s.Invariant) (hx : ¬ s.inContainers f.id) :
    (FutureQueue.append s f).Invariant := by
  have hm : f.id ∉ s.movable := fun hc => hx (Or.inl hc)
  have hr : f.id ∉ s.ready := fun hc => hx (Or.inr (Or.inl hc))
  have hp : f.id ∉ s.inprogress := fun hc => hx (Or.inr (Or.inr hc))
  have key : ∀ m r p : List FutureId, disjInv m r p →
      disjInv (FutureQueue.evictLoop s.highwatermark m).2 r p := by
    intro m r p hmrp
    rw [evictLoop_eq]
    exact disjInv_sublist hmrp (List.drop_sublist _ _)
      (List.Sublist.refl _) (List.Sublist.refl _)
  simp only [FutureQueue.append]
  split
  · exact key _ _ _ (disjInv_append_inprogress h hm hr hp)
  · split
    · exact key _ _ _ (disjInv_append_ready h hm hr hp)
    · split
      · exact key _ _ _ (disjInv_append_inprogress h hm hr hp)
      · exact key _ _ _ (disjInv_append_movable h hm hr hp)

/-- After `append`, every id in a container was already in one, or is
the appended future's id. -/
theorem append_containers_subset (s : QueueState) (f : Future)
    (x : FutureId) (hx : (FutureQueue.append s f).inContainers x) :
    s.inContainers x ∨ x = f.id := by
  have evict : ∀ m : List FutureId,
      x ∈ (FutureQueue.evictLoop s.highwatermark m).2 → x ∈ m := by
    intro m hmem
    rw [evictLoop_eq] at hmem
    exact (List.drop_sublist _ _).subset hmem
  unfold QueueState.inContainers at hx ⊢
  simp only [FutureQueue.append] at hx
  split at hx <;>
    [skip; (split at hx <;> [skip; (split at hx <;> [skip; skip])])] <;>
  · rcases hx with hx | hx | hx
    all_goals
      first
      | (rcases List.mem_append.mp (evict _ hx) with hx' | hx'
         · exact Or.inl (Or.inl hx')
         · simp only [List.mem_singleton] at hx'; exact Or.inr hx')
      | (exact Or.inl (Or.inl (evict _ hx)))
      | (rcases List.mem_append.mp hx with hx' | hx'
         · exact Or.inl (Or.inr (Or.inl hx'))
         · simp only [List.mem_singleton] at hx'; exact Or.inr hx')
      | (exact Or.inl (Or.inr (Or.inl hx)))
      | (rcases List.mem_append.mp hx with hx' | hx'
         · exact Or.inl (Or.inr (Or.inr hx'))
         · simp only [List.mem_singleton] at hx'; exact Or.inr hx')
      | (exact Or.inl (Or.inr (Or.inr hx)))

/-- On a registry whose entries are keyed by their own id, a
successful lookup returns a future bearing the looked-up id. -/
theorem regLookup_id {r : List (FutureId × Future)} {k : FutureId}
    {f : Future} (h : regLookup r k = some f)
    (hwf : ∀ p ∈ r, p.2.id = p.1) : f.id = k := by
  unfold regLookup at h
  cases hfind : r.find? (fun p => p.1 = k) with
  | none => rw [hfind] at h; simp at h
  | some q =>
    rw [hfind] at h
    simp only [Option.map_some', Option.some_inj] at h
    have hq : q.1 = k := by simpa using List.find?_some hfind
    have hqm : q ∈ r := List.mem_of_find?_eq_some hfind
    rw [← h, hwf q hqm, hq]

/-- Every entry of `regSet r k v` is an entry of `r`, the overwritten
key, or the new pair. -/
theorem regSet_mem {r : List (FutureId × Future)} {k : FutureId}
    {v : Future} {q : FutureId × Future} (h : q ∈ regSet r k v) :
    q ∈ r ∨ q = (k, v) := by
  induction r with
  | nil =>
    unfold regSet at h
    simp only [List.mem_singleton] at h
    exact Or.inr h
  | cons p rest ih =>
    unfold regSet at h
    by_cases hp : p.1 = k
    · rw [if_pos hp] at h
      rcases List.mem_cons.mp h with h | h
      · exact Or.inr h
      · exact Or.inl (List.mem_cons_of_mem p h)
    · rw [if_neg hp] at h
      rcases List.mem_cons.mp h with h | h
      · exact Or.inl (h ▸ List.mem_cons_self p rest)
      · rcases ih h with h' | h'
        · exact Or.inl (List.mem_cons_of_mem p h')
        · exact Or.inr h'

/-- The keys of `regSet r k v` are among the keys of `r` plus `k`. -/
theorem regSet_keys_subset {r : List (FutureId × Future)} {k : FutureId}
    {v : Future} {x : FutureId}
    (h : x ∈ (regSet r k v).map (fun p => p.1)) :
    x ∈ r.map (fun p => p.1) ∨ x = k := by
  rcases List.mem_map.mp h with ⟨q, hq, hqx⟩
  rcases regSet_mem hq with hq' | hq'
  · exact Or.inl (hqx ▸ List.mem_map_of_mem _ hq')
  · subst hq'; exact Or.inr hqx.symm

/-- Assignment `regSet` keeps the registry keys duplicate-free. -/
theorem regSet_keys_nodup {r : List (FutureId × Future)} {k : FutureId}
    {v : Future} (h : (r.map (fun p => p.1)).Nodup) :
    ((regSet r k v).map (fun p => p.1)).Nodup := by
  induction r with
  | nil => simp [regSet]
  | cons p rest ih =>
    rw [List.map_cons, List.nodup_cons] at h
    unfold regSet
    by_cases hp : p.1 = k
    · rw [if_pos hp]
      rw [List.map_cons, List.nodup_cons]
      exact ⟨hp ▸ h.1, h.2⟩
    · rw [if_neg hp]
      rw [List.map_cons, List.nodup_cons]
      refine ⟨?_, ih h.2⟩
      intro hc
      rcases regSet_keys_subset hc with hc' | hc'
      · exact h.1 hc'
      · exact hp hc'

/-- Assignment `regSet` with a value keyed by its own id keeps the registry
well-formed. -/
theorem regWF_regSet {r : List (FutureId × Future)} {k : FutureId}
    {v : Future} (h : regWF r) (hv : v.id = k) : regWF (regSet r k v) := by
  refine ⟨?_, regSet_keys_nodup h.2⟩
  intro q hq
  rcases regSet_mem hq with hq' | hq'
  · exact h.1 q hq'
  · subst hq'; exact hv

/-- One reconciliation merge on a fresh id (not currently filed in any
container) preserves the invariant. -/
theorem mergeOne_invariant (s : QueueState) (g : Future)
    (h : s.Invariant) (hwf : regWF s.registry)
    (hx : ¬ s.inContainers g.id) : (FutureQueue.mergeOne s g).Invariant := by
  unfold FutureQueue.mergeOne
  cases hl : regLookup s.registry g.id with
  | some f =>
    have hid : f.id = g.id := regLookup_id hl hwf.1
    apply append_invariant
    · exact h
    · show ¬ QueueState.inContainers _ f.id
      rw [hid]
      exact hx
  | none =>
    apply append_invariant
    · exact h
    · exact hx

/-- After one reconciliation merge, every id in a container was
already in one, or is the incoming future's id. -/
theorem mergeOne_containers_subset (s : QueueState) (g : Future)
    (hwf : regWF s.registry) (x : FutureId)
    (hx : (FutureQueue.mergeOne s g).inContainers x) :
    s.inContainers x ∨ x = g.id := by
  unfold FutureQueue.mergeOne at hx
  cases hl : regLookup s.registry g.id with
  | some f =>
    have hid : f.id = g.id := regLookup_id hl hwf.1
    rw [hl] at hx
    rcases append_containers_subset _ _ _ hx with hx' | hx'
    · exact Or.inl hx'
    · exact Or.inr (by rw [hx', hid])
  | none =>
    rw [hl] at hx
    have hx' : (FutureQueue.append
        { s with registry := regSet s.registry g.id g } g).inContainers x := hx
    rcases append_containers_subset _ _ _ hx' with h' | h'
    · exact Or.inl h'
    · exact Or.inr h'

/-- One reconciliation merge keeps the registry well-formed. -/
theorem mergeOne_regWF (s : QueueState) (g : Future)
    (hwf : regWF s.registry) : regWF (FutureQueue.mergeOne s g).registry := by
  unfold FutureQueue.mergeOne
  cases hl : regLookup s.registry g.id with
  | some f =>
    have hid : f.id = g.id := regLookup_id hl hwf.1
    rw [append_registry]
    exact regWF_regSet hwf hid
  | none =>
    rw [append_registry]
    exact regWF_regSet hwf rfl

/-- Folding the merge over a batch of pairwise-distinct, container-free
ids preserves the invariant. -/
theorem foldl_mergeOne_invariant (l : List Future) :
    ∀ s : QueueState, s.Invariant → regWF s.registry →
      (l.map (fun g => g.id)).Nodup →
      (∀ g ∈ l, ¬ s.inContainers g.id) →
      (List.foldl FutureQueue.mergeOne s l).Invariant := by
  induction l with
  | nil => exact fun s h _ _ _ => h
  | cons g rest ih =>
    intro s h hwf hids hfresh
    rw [List.map_cons, List.nodup_cons] at hids
    simp only [List.foldl_cons]
    apply ih
    · exact mergeOne_invariant s g h hwf (hfresh g (List.mem_cons_self g rest))
    · exact mergeOne_regWF s g hwf
    · exact hids.2
    · intro g' hg' hc
      rcases mergeOne_containers_subset s g hwf g'.id hc with hc' | hc'
      · exact hfresh g' (List.mem_cons_of_mem g hg') hc'
      · exact hids.1 (hc' ▸ List.mem_map_of_mem _ hg')

/-- The first reconciliation phase (moving resolved `inprogress`
futures to `ready`) preserves the invariant. -/
theorem resolveInprogress_invariant (s : QueueState) (h : s.Invariant) :
    (FutureQueue.resolveInprogress s).Invariant := by
  obtain ⟨h1, h2, h3, h4, h5, h6⟩ := h
  show disjInv s.movable
    (s.ready ++
      s.inprogress.filter (fun fid => FutureQueue.hasResolvedIndex s fid))
    (s.inprogress.filter (fun fid => !FutureQueue.hasResolvedIndex s fid))
  refine ⟨h1, ?_, h3.filter _, ?_, ?_, ?_⟩
  · rw [List.nodup_append]
    refine ⟨h2, h3.filter _, ?_⟩
    intro a ha hc
    exact h6 a ha (List.mem_of_mem_filter hc)
  · intro x hx hc
    rcases List.mem_append.mp hc with hc' | hc'
    · exact h4 x hx hc'
    · exact h5 x hx (List.mem_of_mem_filter hc')
  · intro x hx hc
    exact h5 x hx (List.mem_of_mem_filter hc)
  · intro x hx hc
    rcases List.mem_append.mp hx with hx' | hx'
    · exact h6 x hx' (List.mem_of_mem_filter hc)
    · have hpx := (List.mem_filter.mp hx').2
      have hnx := (List.mem_filter.mp hc).2
      rw [hpx] at hnx
      exact Bool.false_ne_true (by simpa using hnx.symm)

/-- The first reconciliation phase introduces no new ids. -/
theorem resolveInprogress_containers (s : QueueState) (x : FutureId)
    (hx : (FutureQueue.resolveInprogress s).inContainers x) :
    s.inContainers x := by
  have hx' : x ∈ s.movable ∨
      x ∈ s.ready ++
        s.inprogress.filter (fun fid => FutureQueue.hasResolvedIndex s fid) ∨
      x ∈ s.inprogress.filter
        (fun fid => !FutureQueue.hasResolvedIndex s fid) := hx
  unfold QueueState.inContainers
  rcases hx' with hx | hx | hx
  · exact Or.inl hx
  · rcases List.mem_append.mp hx with hx' | hx'
    · exact Or.inr (Or.inl hx')
    · exact Or.inr (Or.inr (List.mem_of_mem_filter hx'))
  · exact Or.inr (Or.inr (List.mem_of_mem_filter hx))

/-- Reconciliation `updateQueue` on a batch of pairwise-distinct ids absent from all
containers preserves the invariant. -/
theorem updateQueue_invariant (s : QueueState) (incoming : List Future)
    (h : s.Invariant) (hwf : regWF s.registry)
    (hids : (incoming.map (fun g => g.id)).Nodup)
    (hfresh : ∀ g ∈ incoming, ¬ s.inContainers g.id) :
    (FutureQueue.updateQueue s incoming).Invariant := by
  unfold FutureQueue.updateQueue
  apply foldl_mergeOne_invariant
  · exact resolveInprogress_invariant s h
  · exact hwf
  · exact hids
  · exact fun g hg hc => hfresh g hg (resolveInprogress_containers s g.id hc)

/-- The operation `remove` (erase from `movable`) preserves the invariant. -/
theorem remove_invariant (s : QueueState) (fid : FutureId)
    (h : s.Invariant) : (FutureQueue.remove s fid).Invariant :=
  disjInv_sublist h (List.erase_sublist _ _) (List.Sublist.refl _)
    (List.Sublist.refl _)

/-- The operation `pop` preserves the invariant under the same transport hypotheses
as `updateQueue` (it then only drops the last element of one
container). -/
theorem pop_invariant (s : QueueState) (incoming : List Future)
    (h : s.Invariant) (hwf : regWF s.registry)
    (hids : (incoming.map (fun g => g.id)).Nodup)
    (hfresh : ∀ g ∈ incoming, ¬ s.inContainers g.id) :
    (FutureQueue.pop s incoming).2.Invariant := by
  have hu := updateQueue_invariant s incoming h hwf hids hfresh
  simp only [FutureQueue.pop]
  split
  · split
    · exact disjInv_sublist hu (List.Sublist.refl _)
        (List.dropLast_sublist _) (List.Sublist.refl _)
    · split
      · exact disjInv_sublist hu (List.dropLast_sublist _)
          (List.Sublist.refl _) (List.Sublist.refl _)
      · exact hu
  · split
    · exact disjInv_sublist hu (List.Sublist.refl _)
        (List.dropLast_sublist _) (List.Sublist.refl _)
    · split
      · exact disjInv_sublist hu (List.dropLast_sublist _)
          (List.Sublist.refl _) (List.Sublist.refl _)
      · exact hu

/-- A completed future with a resolved index, filed in `ready` and
registered. -/
def fC4 : Future :=
  { mkFuture 0 11 with resultValue := some 2, index := some 0 }

/-- The queue holding `fC4` in `ready` (its result arrived once
already) — a state satisfying the containment invariant. -/
def stateC4 : QueueState :=
  { emptyQueue with ready := [fC4.id], registry := [(fC4.id, fC4)] }

/-- C4, counterexample: a duplicate transport delivery of the already
filed `fC4` makes `updateQueue` append the registry-canonical object a
second time — `ready` ends with the same id twice, so `updateQueue`
does not preserve the no-duplicates/disjointness invariant. -/
theorem updateQueue_duplicate_cex :
    stateC4.Invariant ∧
    (FutureQueue.updateQueue stateC4 [fC4]).ready = [fC4.id, fC4.id] ∧
    ¬ (FutureQueue.updateQueue stateC4 [fC4]).Invariant := by decide

/-- C4, amended: `append` preserves the containment invariant when the
appended future's id is in no container; `remove` preserves it
unconditionally; `updateQueue` and `pop` preserve it when the incoming
transport batch carries pairwise-distinct ids none of which is
currently filed in a container (a duplicate delivery of a filed future
violates it, per the counterexample). -/
theorem queue_ops_preserve_disjointness (s : QueueState) (f : Future)
    (fid : FutureId) (incoming : List Future)
    (hInv : s.Invariant)
    (hf : ¬ s.inContainers f.id)
    (hwf : regWF s.registry)
    (hids : (incoming.map (fun g => g.id)).Nodup)
    (hfresh : ∀ g ∈ incoming, ¬ s.inContainers g.id) :
    (FutureQueue.append s f).Invariant ∧
    (FutureQueue.remove s fid).Invariant ∧
    (FutureQueue.updateQueue s incoming).Invariant ∧
    (FutureQueue.pop s incoming).2.Invariant :=
  ⟨append_invariant s f hInv hf, remove_invariant s fid hInv,
   updateQueue_invariant s incoming hInv hwf hids hfresh,
   pop_invariant s incoming hInv hwf hids hfresh⟩

/-- C4 witness: the amended preservation statement evaluated on
`onePendingQueue` with a fresh future appended, the pending id removed,
and a fresh incoming future reconciled. -/
theorem queue_ops_preserve_disjointness_witness :
    (FutureQueue.append onePendingQueue (mkFuture 0 13)).Invariant ∧
    (FutureQueue.remove onePendingQueue (mkFuture 0 5).id).Invariant ∧
    (FutureQueue.updateQueue onePendingQueue [mkFuture 0 14]).Invariant ∧
    (FutureQueue.pop onePendingQueue [mkFuture 0 14]).2.Invariant :=
  queue_ops_preserve_disjointness onePendingQueue (mkFuture 0 13)
    (mkFuture 0 5).id [mkFuture 0 14] (by decide) (by decide) (by decide)
    (by decide) (by decide)

end Scoop
